import Mathlib

/-!
Verification of the document ingestion / rule-evaluation pipeline
(`document_processor.py`, with service wrappers in `azure_services.py`).

The Python code is shallowly embedded:

* text is `List Char`; Python slice / `rfind` / `strip` / `replace`
  semantics (including negative indices) are modelled by `pySlice`,
  `pyRfindDot`, `pyStrip`, `pyReplace`;
* `chunk_text`'s `while` loop is modelled with explicit fuel
  (`chunkTextF fuel ... = some chunks` means the loop terminates within
  `fuel` iterations and returns `chunks`; `none` means it has not
  terminated yet, so `∀ fuel, ... = none` is non-termination);
* JSON values are the inductive `Json` (numbers as `Int`; the pipeline
  only ever compares integer confidences); `json.loads` is an external
  library call and is passed as an oracle `loads : String → Option Json`
  (`none` = `json.JSONDecodeError`); Python `dict` operations `get` and
  item assignment are `jLookup` / `pyDictGet` / `dictSet`, and operations
  that raise (`AttributeError` on `.get` of a non-dict, `TypeError` on
  `value >= 90` for a non-numeric value) are modelled with `Except`;
* the regex `r'\x7b.*\x7d'` with `re.DOTALL` (first brace to last brace,
  greedy) is `extractBraces`; the regex `confidence["\s:]*(\d+)` with
  `re.IGNORECASE` is `confDigits`;
* the external sinks (search index, Cosmos DB) are oracles
  `Nat → Except String Bool` giving each write's outcome (`.error` =
  the call raised, `.ok b` = the call returned `b`).
-/

/-! ### Python string primitives -/

/-- Python whitespace: the exact set of code points for which
`str.isspace()` holds (which is what `str.strip()` removes) — and also
exactly the set the regex class `\s` matches on `str` patterns:
U+0009–U+000D, U+001C–U+001F, space, U+0085, U+00A0, U+1680,
U+2000–U+200A, U+2028, U+2029, U+202F, U+205F, U+3000. -/
def pyIsSpace (c : Char) : Bool :=
  (0x9 ≤ c.toNat && c.toNat ≤ 0xd) || c.toNat == 0x20 ||
  (0x1c ≤ c.toNat && c.toNat ≤ 0x1f) || c.toNat == 0x85 || c.toNat == 0xa0 ||
  c.toNat == 0x1680 || (0x2000 ≤ c.toNat && c.toNat ≤ 0x200a) ||
  c.toNat == 0x2028 || c.toNat == 0x2029 || c.toNat == 0x202f ||
  c.toNat == 0x205f || c.toNat == 0x3000

/-- Python `str.strip()`. -/
def pyStrip (s : List Char) : List Char :=
  (((s.dropWhile pyIsSpace).reverse).dropWhile pyIsSpace).reverse

/-- Normalize a Python slice index to an actual list position:
negative indices count from the end, then the result is clamped to
`[0, n]`. -/
def sliceIdx (n : Nat) (i : Int) : Nat :=
  (if i < 0 then max (i + n) 0 else min i n).toNat

/-- Python `s[i:j]` on text. -/
def pySlice (s : List Char) (i j : Int) : List Char :=
  (s.take (sliceIdx s.length j)).drop (sliceIdx s.length i)

/-- Python `s.rfind('.', i, j)`: the highest position of `'.'` in the
normalized range `[i, j)`, or `-1` when there is none. -/
def pyRfindDot (s : List Char) (i j : Int) : Int :=
  match ((List.range s.length).filter
      (fun k => decide (sliceIdx s.length i ≤ k) && decide (k < sliceIdx s.length j) &&
        decide (s.getD k ' ' = '.'))).getLast? with
  | some k => (k : Int)
  | none => -1

/-- Python `s.lower()` (ASCII case folding, which is all the keyword
tests rely on). -/
def pyLower (s : List Char) : List Char := s.map Char.toLower

/-- Python `sub in s` (substring containment), as a Bool. -/
def listContains (s sub : List Char) : Bool :=
  match s with
  | [] => sub.isPrefixOf ([] : List Char)
  | _ :: rest => sub.isPrefixOf s || listContains rest sub

/-- Recursion core of Python `s.replace(old, new)` for non-empty `old`,
with fuel (structural, so that it evaluates; for non-empty `old` each
step shortens the text by at least one character, so `s.length` fuel is
always enough — see `pyReplaceFuel_fuel_irrel`). -/
def pyReplaceFuel (old new : List Char) : Nat → List Char → List Char
  | 0, s => s
  | Nat.succ fuel, s =>
    match s with
    | [] => []
    | c :: rest =>
      if old.isPrefixOf (c :: rest) then
        new ++ pyReplaceFuel old new fuel ((c :: rest).drop old.length)
      else c :: pyReplaceFuel old new fuel rest

/-- Python `s.replace(old, new)`: replace non-overlapping occurrences
left to right.  (For `old = ""` Python inserts `new` around every
character; the pipeline never calls it that way but the case is modelled
faithfully.) -/
def pyReplace (s old new : List Char) : List Char :=
  if old = [] then
    new ++ (s.map (fun c => c :: new)).flatten
  else pyReplaceFuel old new s.length s

/-! ### Chunker (`chunk_text`, document_processor.py lines 45–71) -/

/-- The window end position computed inside one iteration of
`chunk_text`'s loop: `end = start + chunk_size`, shortened to just past
the last period in the window when that period lies beyond the window's
midpoint (`sentence_end > start + chunk_size // 2`; Python `//` is floor
division, `Int.fdiv`). -/
def chunkEnd (text : List Char) (cs start : Int) : Int :=
  if start + cs < (text.length : Int) then
    if start + cs.fdiv 2 < pyRfindDot text start (start + cs) then
      pyRfindDot text start (start + cs) + 1
    else start + cs
  else start + cs

/-- The `while start < len(text)` loop of `chunk_text`, with explicit
fuel.  One iteration: compute the window end, strip the slice, append it
when non-empty, advance to `end - overlap`, and stop as soon as the new
start reaches the text length (`if start >= len(text): break`). -/
def chunkLoop (text : List Char) (cs ov : Int) : Nat → Int → List (List Char) → Option (List (List Char))
  | 0, _, _ => none
  | Nat.succ fuel, start, acc =>
    if start < (text.length : Int) then
      let e := chunkEnd text cs start
      let chunk := pyStrip (pySlice text start e)
      let acc2 := if chunk = [] then acc else acc ++ [chunk]
      if (text.length : Int) ≤ e - ov then some acc2
      else chunkLoop text cs ov fuel (e - ov) acc2
    else some acc

/-- `chunk_text(text, chunk_size, overlap)`: texts at most `chunk_size`
long are returned as a single chunk, otherwise the loop runs from
`start = 0` with an empty accumulator. -/
def chunkTextF (fuel : Nat) (text : List Char) (cs ov : Int) : Option (List (List Char)) :=
  if (text.length : Int) ≤ cs then some [text] else chunkLoop text cs ov fuel 0 []

/-- Position `i` of `text` carries the chunk `c`: `c` occurs in `text`
starting at `i`. -/
def occursAt (text c : List Char) (i : Nat) : Prop :=
  (text.drop i).take c.length = c

/-- Position `pos` of `text` lies inside at least one chunk of
`chunks`, at that chunk's place in the text. -/
def coveredBy (text : List Char) (chunks : List (List Char)) (pos : Nat) : Prop :=
  ∃ c ∈ chunks, ∃ i, occursAt text c i ∧ i ≤ pos ∧ pos < i + c.length

/-! ### Content classifier (`_analyze_chunk_content`, lines 73–148) -/

/-- The result dictionary of `_analyze_chunk_content` (fixed keys). -/
structure ChunkAnalysis where
  purpose : List Char
  definitions : List Char
  eligibility : List Char
  obligations : List Char
  responsibilities : List Char
  payments : List Char
  penalties : List Char
  enforcement : List Char
  record_keeping : List Char
  rules : List Char

/-- `chunk[:200] + "..." if len(chunk) > 200 else chunk`. -/
def truncate200 (chunk : List Char) : List Char :=
  if 200 < chunk.length then chunk.take 200 ++ "...".data else chunk

/-- `any(word in chunk_lower for word in kws)`. -/
def kwAny (chunkLower : List Char) (kws : List (List Char)) : Bool :=
  kws.any (fun w => listContains chunkLower w)

def defKeywords : List (List Char) :=
  ["means".data, "definition".data, "interpret".data, "shall mean".data]

def eligKeywords : List (List Char) :=
  ["eligible".data, "qualification".data, "entitled".data, "qualify".data]

def obligKeywords : List (List Char) :=
  ["shall".data, "must".data, "obligation".data, "duty".data, "required".data]

def respKeywords : List (List Char) :=
  ["responsible".data, "responsibility".data, "authority".data, "administer".data]

def payKeywords : List (List Char) :=
  ["payment".data, "benefit".data, "amount".data, "entitlement".data, "credit".data]

def penKeywords : List (List Char) :=
  ["penalty".data, "fine".data, "sanction".data, "offence".data, "prosecution".data]

def recKeywords : List (List Char) :=
  ["record".data, "report".data, "information".data, "data".data, "maintain".data]

/-- `_analyze_chunk_content(chunk)`: keyword membership tests against the
lowercased chunk fill the category fields with the truncated chunk; a
penalty match fills both `penalties` and `enforcement`; `purpose` is
derived from the fields in the priority order written in the source
(definitions, eligibility, payments, penalties, generic).  (The
`except` branch of the source is unreachable: every operation here is
total.) -/
def analyze_chunk_content (chunk : List Char) : ChunkAnalysis :=
  let lower := pyLower chunk
  let d := if kwAny lower defKeywords then truncate200 chunk else []
  let el := if kwAny lower eligKeywords then truncate200 chunk else []
  let ob := if kwAny lower obligKeywords then truncate200 chunk else []
  let rs := if kwAny lower respKeywords then truncate200 chunk else []
  let pa := if kwAny lower payKeywords then truncate200 chunk else []
  let pe := if kwAny lower penKeywords then truncate200 chunk else []
  { purpose :=
      if d ≠ [] then "Definitions section".data
      else if el ≠ [] then "Eligibility criteria".data
      else if pa ≠ [] then "Payment and entitlements".data
      else if pe ≠ [] then "Enforcement and penalties".data
      else "General legislative content".data
    definitions := d
    eligibility := el
    obligations := ob
    responsibilities := rs
    payments := pa
    penalties := pe
    enforcement := pe
    record_keeping := if kwAny lower recKeywords then truncate200 chunk else []
    rules := [] }

/-! ### Identifier sanitization (`process_and_index_document`, lines 176–178) -/

/-- `clean_blob_name = blob_name.replace('.pdf', '').replace('.', '_').replace(' ', '_')`. -/
def clean_blob_name (s : List Char) : List Char :=
  pyReplace (pyReplace (pyReplace s ".pdf".data []) ".".data "_".data) " ".data "_".data

/-- `doc_id = f"{clean_blob_name}_chunk_{i}"`. -/
def doc_id (blob : List Char) (i : Nat) : List Char :=
  clean_blob_name blob ++ "_chunk_".data ++ (Nat.repr i).data

/-- Modelled from the claim's words, for comparison with `doc_id`:
sanitization that replaces the literal extension suffix, the remaining
periods, and the spaces with underscores. -/
def claimSanitize (s : List Char) : List Char :=
  let s1 := if ".pdf".data.isSuffixOf s then s.take (s.length - 4) ++ "_".data else s
  s1.map (fun c => if c = '.' ∨ c = ' ' then '_' else c)

/-- The chunk identifier the claim's words describe. -/
def claimDocId (blob : List Char) (i : Nat) : List Char :=
  claimSanitize blob ++ "_chunk_".data ++ (Nat.repr i).data

/-- Character-level sanitization of periods and spaces (used to state the
amended form of the sanitization claim). -/
def underscoreDotSpace (c : Char) : Char :=
  if c = '.' ∨ c = ' ' then '_' else c

/-! ### Indexing phase (`process_and_index_document`, lines 215–266) -/

/-- One pass over a list of write indices: each write is attempted in
order (`.error` = the call raised and was caught, `.ok b` = it returned
`b`); the running flag is cleared on a `False` return or an exception
and the loop continues regardless.  Returns the final flag and the list
of indices actually attempted. -/
def runWrites (idxs : List Nat) (call : Nat → Except String Bool) : Bool × List Nat :=
  idxs.foldl
    (fun acc i =>
      (acc.1 && (match call i with | Except.ok b => b | Except.error _ => false),
       acc.2 ++ [i]))
    (true, [])

/-- Python `range(0, stop, step)` for `step > 0`. -/
def pyRangeStep (stop step : Nat) : List Nat :=
  (List.range ((stop + step - 1) / step)).map (fun k => k * step)

/-- Result of the write phase of `process_and_index_document`. -/
structure IndexPhaseResult where
  searchSuccess : Bool
  cosmosSuccess : Bool
  indexed : Bool
  searchBatchesAttempted : List Nat
  cosmosChunksAttempted : List Nat

/-- The write phase of `process_and_index_document` over `numChunks`
prepared chunk records: search-index uploads run over batch start
indices `range(0, numChunks, 10)` (the oracle `uploadBatch` gives each
batch call's outcome), Cosmos writes run per chunk index (`storeCosmos`),
and the returned `indexed` flag is `search_success and cosmos_success`.
The `store_act_summary` side artifact written afterwards catches all its
exceptions internally and its return value is discarded, so it cannot
affect the result and is not modelled. -/
def indexPhase (numChunks : Nat) (uploadBatch storeCosmos : Nat → Except String Bool) :
    IndexPhaseResult :=
  let s := runWrites (pyRangeStep numChunks 10) uploadBatch
  let c := runWrites (List.range numChunks) storeCosmos
  { searchSuccess := s.1
    cosmosSuccess := c.1
    indexed := s.1 && c.1
    searchBatchesAttempted := s.2
    cosmosChunksAttempted := c.2 }

/-- The outcome a write loop's flag computes: every call returned
`True`. -/
def allOk (idxs : List Nat) (call : Nat → Except String Bool) : Bool :=
  idxs.all (fun i => match call i with | Except.ok b => b | Except.error _ => false)

/-! ### JSON values and Python dict operations (`check_rules`, lines 355–469) -/

/-- JSON values as produced by `json.loads` (numbers restricted to the
integers, which is all the rule checker ever compares). -/
inductive Json where
  | null : Json
  | jbool : Bool → Json
  | num : Int → Json
  | str : String → Json
  | arr : List Json → Json
  | obj : List (String × Json) → Json

/-- First-match association lookup (Python dicts have unique keys, so
this is dict access). -/
def jLookup (d : List (String × Json)) (k : String) : Option Json :=
  match d with
  | [] => none
  | (k1, v) :: rest => if k1 = k then some v else jLookup rest k

/-- Python `d.get(k, dflt)` on a dict. -/
def pyDictGet (d : List (String × Json)) (k : String) (dflt : Json) : Json :=
  (jLookup d k).getD dflt

/-- Python `d[k] = v`: overwrite the existing entry or append a new
one. -/
def dictSet (d : List (String × Json)) (k : String) (v : Json) : List (String × Json) :=
  if d.any (fun p => p.1 = k) then d.map (fun p => if p.1 = k then (k, v) else p)
  else d ++ [(k, v)]

/-- Python `value >= 90` for a JSON value: integers compare, booleans
are the integers 0/1 (so never ≥ 90), anything else raises
`TypeError`. -/
def confGe90 : Json → Except String Bool
  | Json.num n => Except.ok (decide (90 ≤ n))
  | Json.jbool _ => Except.ok false
  | _ => Except.error "TypeError: not supported between instances of this type and int"

/-- The confidence override applied to a freshly parsed `rule_result`:
`if rule_result.get('confidence', 0) >= 90: rule_result['status'] = 'pass'`.
A non-dict parse raises `AttributeError` at `.get`; a non-numeric
confidence raises `TypeError` at `>=`. -/
def applyOverride (j : Json) : Except String (List (String × Json)) :=
  match j with
  | Json.obj kvs =>
    match confGe90 (pyDictGet kvs "confidence" (Json.num 0)) with
    | Except.ok true => Except.ok (dictSet kvs "status" (Json.str "pass"))
    | Except.ok false => Except.ok kvs
    | Except.error e => Except.error e
  | _ => Except.error "AttributeError: this object has no attribute get"

/-- Find the first index of a character in a list. -/
def firstIdx (c : Char) : List Char → Option Nat
  | [] => none
  | x :: rest => if x = c then some 0 else (firstIdx c rest).map (fun n => n + 1)

/-- `re.search(r'\x7b.*\x7d', response, re.DOTALL)`: with a greedy `.*`
that may span newlines, the match (when it exists) runs from the first
`'\x7b'` that precedes the last `'\x7d'` — equivalently from the first
`'\x7b'` to the last `'\x7d'`, provided the former comes first. -/
def extractBraces (response : String) : Option String :=
  let s := response.data
  match firstIdx '\x7b' s, firstIdx '\x7d' s.reverse with
  | some i, some rj =>
    let j := s.length - 1 - rj
    if i < j then some (String.mk ((s.take (j + 1)).drop i)) else none
  | _, _ => none

/-- Characters matched by the regex class `["\s:]`. -/
def isConfClass (c : Char) : Bool := c == '"' || c == ':' || pyIsSpace c

/-- `re.search(r'confidence["\s:]*(\d+)', response, re.IGNORECASE)`:
scan the lowercased response for the leftmost position where
`confidence`, then any run of quote/colon/whitespace characters, then at
least one digit occurs, and return the (greedy) digit run.  (The class
and the digits are disjoint, so backtracking cannot produce another
match at the same position.) -/
def confDigits : List Char → Option (List Char)
  | [] => none
  | c :: rest =>
    if "confidence".data.isPrefixOf (c :: rest) then
      let ds := (((c :: rest).drop 10).dropWhile isConfClass).takeWhile Char.isDigit
      if ds = [] then confDigits rest else some ds
    else confDigits rest

/-- `int()` of a non-empty digit string. -/
def digitsToNat (ds : List Char) : Nat :=
  ds.foldl (fun a c => a * 10 + (c.toNat - 48)) 0

/-- Python `sub in s` on strings. -/
def pyContains (s sub : String) : Bool := listContains s.data sub.data

/-- Python `s.lower()` on strings. -/
def strLower (s : String) : String := String.mk (pyLower s.data)

/-- The lexical status before the override: `'pass'` if the lowercased
response contains `"pass"` (checked first), else `'fail'` if it contains
`"fail"`, else `'unknown'`. -/
def lexicalStatusBase (response : String) : String :=
  if pyContains (strLower response) "pass" then "pass"
  else if pyContains (strLower response) "fail" then "fail"
  else "unknown"

/-- The lexical confidence: the integer matched by the confidence
pattern, defaulting to 0 when absent. -/
def lexicalConfidence (response : String) : Int :=
  match confDigits (pyLower response.data) with
  | some ds => (digitsToNat ds : Int)
  | none => 0

/-- The verdict built by the lexical fallback (no JSON found at all in
the response): status from the pass/fail text search, then the ≥ 90
override, evidence the raw response, confidence from the regex. -/
def lexicalVerdict (rule response : String) : List (String × Json) :=
  [("rule", Json.str rule),
   ("status", Json.str (if 90 ≤ lexicalConfidence response then "pass"
                        else lexicalStatusBase response)),
   ("evidence", Json.str response),
   ("confidence", Json.num (lexicalConfidence response))]

/-- The final-fallback verdict (`except Exception` around the embedded
parse: brace substring found but unparseable, or the parsed object
unusable). -/
def unknownVerdict (rule response : String) : List (String × Json) :=
  [("rule", Json.str rule),
   ("status", Json.str "unknown"),
   ("evidence", Json.str response),
   ("confidence", Json.num 0)]

/-- The per-rule `except Exception` verdict (an exception escaped the
direct-parse path, e.g. `AttributeError` / `TypeError` from the
override on a successfully parsed non-rule-shaped value). -/
def errorVerdict (rule msg : String) : List (String × Json) :=
  [("rule", Json.str rule),
   ("status", Json.str "error"),
   ("evidence", Json.str msg),
   ("confidence", Json.num 0)]

/-- The verdict `check_rules` appends for one rule, given the completion
service's response text.  Control flow of the source: direct
`json.loads` (only `JSONDecodeError` caught); then brace-substring
extraction and parse, with *any* exception inside that attempt (parse
failure included) producing the final `unknown` fallback; the lexical
inference runs only when no brace-delimited substring exists; an
exception on the direct path that is not a `JSONDecodeError` reaches the
per-rule handler and yields an `error` verdict. -/
def checkRuleResponse (loads : String → Option Json) (rule response : String) :
    List (String × Json) :=
  match loads response with
  | some j =>
    match applyOverride j with
    | Except.ok v => v
    | Except.error e => errorVerdict rule e
  | none =>
    match extractBraces response with
    | some sub =>
      match loads sub with
      | some j =>
        match applyOverride j with
        | Except.ok v => v
        | Except.error _ => unknownVerdict rule response
      | none => unknownVerdict rule response
    | none => lexicalVerdict rule response

/-- The six fixed rule statements of `check_rules`. -/
def rulesList : List String :=
  ["Act must define key terms",
   "Act must specify eligibility criteria",
   "Act must specify responsibilities of the administering authority",
   "Act must include enforcement or penalties",
   "Act must include payment calculation or entitlement structure",
   "Act must include record-keeping or reporting requirements"]

/-- `check_rules`: one verdict per rule, in rule order.  `respond r` is
the completion service's response for rule `r` (`chat_completion`
catches its own exceptions and returns `""` on failure, so the response
is always a string). -/
def check_rules (loads : String → Option Json) (respond : String → String) :
    List (List (String × Json)) :=
  rulesList.map (fun r => checkRuleResponse loads r (respond r))

/-- The status string of a verdict (`""` when the status field is
missing or not a string). -/
def statusStr (v : List (String × Json)) : String :=
  match jLookup v "status" with
  | some (Json.str s) => s
  | _ => ""

/-- A verdict is well formed when it carries all four advertised fields
with their advertised types. -/
def wellFormed (v : List (String × Json)) : Prop :=
  (∃ r, jLookup v "rule" = some (Json.str r)) ∧
  (∃ st, jLookup v "status" = some (Json.str st)) ∧
  (∃ ev, jLookup v "evidence" = some (Json.str ev)) ∧
  (∃ cn, jLookup v "confidence" = some (Json.num cn))

/-- An oracle for `json.loads` that fails on every input (the behavior
of `json.loads` on any non-JSON string). -/
def loadsNone : String → Option Json := fun _ => none

/-- A well-formed JSON response stating `status: fail` with confidence
95, and the oracle behaving as `json.loads` does on it. -/
def resp95 : String :=
  "\x7b\"rule\": \"R\", \"status\": \"fail\", \"evidence\": \"sec 2\", \"confidence\": 95\x7d"

def loads95 : String → Option Json := fun s =>
  if s = resp95 then
    some (Json.obj [("rule", Json.str "R"), ("status", Json.str "fail"),
                    ("evidence", Json.str "sec 2"), ("confidence", Json.num 95)])
  else none

/-- A valid JSON object that is not rule-shaped, and the oracle behaving
as `json.loads` does on it. -/
def respA : String := "\x7b\"a\": 1\x7d"

def loadsObjA : String → Option Json := fun s =>
  if s = respA then some (Json.obj [("a", Json.num 1)]) else none

/-! ### Dict lookup lemmas -/

theorem jLookup_cons (k1 : String) (v1 : Json) (rest : List (String × Json)) (k : String) :
    jLookup ((k1, v1) :: rest) k = if k1 = k then some v1 else jLookup rest k := rfl

theorem jLookup_map_set (d : List (String × Json)) (k : String) (v : Json)
    (h : (d.any fun p => decide (p.1 = k)) = true) :
    jLookup (d.map (fun p => if p.1 = k then (k, v) else p)) k = some v := by
  induction d with
  | nil => simp at h
  | cons hd tl ih =>
    obtain ⟨k1, v1⟩ := hd
    rw [List.map_cons]
    by_cases hk : k1 = k
    · rw [show (if ((k1, v1) : String × Json).1 = k then (k, v) else (k1, v1)) = (k, v)
          from by simp [hk]]
      rw [jLookup_cons, if_pos rfl]
    · rw [show (if ((k1, v1) : String × Json).1 = k then (k, v) else (k1, v1)) = (k1, v1)
          from by simp [hk]]
      rw [jLookup_cons, if_neg hk]
      exact ih (by simpa [hk] using h)

theorem jLookup_append_new (d : List (String × Json)) (k : String) (v : Json)
    (h : (d.any fun p => decide (p.1 = k)) = false) :
    jLookup (d ++ [(k, v)]) k = some v := by
  induction d with
  | nil => simp [jLookup]
  | cons hd tl ih =>
    obtain ⟨k1, v1⟩ := hd
    simp only [List.any_cons, Bool.or_eq_false_iff, decide_eq_false_iff_not] at h
    rw [List.cons_append, jLookup_cons, if_neg h.1]
    exact ih (by simpa using h.2)

theorem jLookup_dictSet_self (d : List (String × Json)) (k : String) (v : Json) :
    jLookup (dictSet d k v) k = some v := by
  unfold dictSet
  split
  next h => exact jLookup_map_set d k v h
  next h => exact jLookup_append_new d k v (Bool.eq_false_iff.mpr h)

theorem jLookup_map_set_other (d : List (String × Json)) (k k1 : String) (v : Json)
    (hne : k1 ≠ k) :
    jLookup (d.map (fun p => if p.1 = k then (k, v) else p)) k1 = jLookup d k1 := by
  have hne2 : ¬ k = k1 := fun h => hne h.symm
  induction d with
  | nil => rfl
  | cons hd tl ih =>
    obtain ⟨k0, v0⟩ := hd
    rw [List.map_cons]
    by_cases hk : k0 = k
    · rw [show (if ((k0, v0) : String × Json).1 = k then (k, v) else (k0, v0)) = (k, v)
          from by simp [hk]]
      rw [jLookup_cons, if_neg hne2, jLookup_cons]
      rw [if_neg (by rw [hk]; exact hne2)]
      exact ih
    · rw [show (if ((k0, v0) : String × Json).1 = k then (k, v) else (k0, v0)) = (k0, v0)
          from by simp [hk]]
      rw [jLookup_cons, jLookup_cons, ih]

theorem jLookup_append_other (d : List (String × Json)) (k k1 : String) (v : Json)
    (hne : k1 ≠ k) :
    jLookup (d ++ [(k, v)]) k1 = jLookup d k1 := by
  have hne2 : ¬ k = k1 := fun h => hne h.symm
  induction d with
  | nil => simp [jLookup, hne2]
  | cons hd tl ih =>
    obtain ⟨k0, v0⟩ := hd
    rw [List.cons_append, jLookup_cons, jLookup_cons, ih]

theorem jLookup_dictSet_other (d : List (String × Json)) (k k1 : String) (v : Json)
    (hne : k1 ≠ k) :
    jLookup (dictSet d k v) k1 = jLookup d k1 := by
  unfold dictSet
  split
  · exact jLookup_map_set_other d k k1 v hne
  · exact jLookup_append_other d k k1 v hne

/-! ### Verdict field lemmas -/

theorem jLookup_lexical_conf (rule response : String) :
    jLookup (lexicalVerdict rule response) "confidence" =
      some (Json.num (lexicalConfidence response)) := rfl

theorem jLookup_lexical_status (rule response : String) :
    jLookup (lexicalVerdict rule response) "status" =
      some (Json.str (if 90 ≤ lexicalConfidence response then "pass"
                      else lexicalStatusBase response)) := rfl

theorem jLookup_unknown_conf (rule response : String) :
    jLookup (unknownVerdict rule response) "confidence" = some (Json.num 0) := rfl

theorem jLookup_error_conf (rule msg : String) :
    jLookup (errorVerdict rule msg) "confidence" = some (Json.num 0) := rfl

/-- When the parsed object passes through the override without raising,
a confidence field of at least 90 in the resulting verdict forces the
status field to `pass`. -/
theorem override_ok_conf (j : Json) (v : List (String × Json)) (c : Int)
    (hO : applyOverride j = Except.ok v)
    (hconf : jLookup v "confidence" = some (Json.num c))
    (hge : 90 ≤ c) :
    jLookup v "status" = some (Json.str "pass") := by
  unfold applyOverride at hO
  cases j with
  | obj kvs =>
    dsimp only at hO
    rcases hC : confGe90 (pyDictGet kvs "confidence" (Json.num 0)) with e | b
    · rw [hC] at hO
      exact absurd hO (by simp)
    · rw [hC] at hO
      cases b
      · simp only at hO
        injection hO with hv
        subst hv
        exfalso
        unfold pyDictGet at hC
        rw [hconf] at hC
        simp only [Option.getD_some, confGe90] at hC
        injection hC with hC
        have := of_decide_eq_false hC
        omega
      · simp only at hO
        injection hO with hv
        subst hv
        exact jLookup_dictSet_self kvs "status" (Json.str "pass")
  | null => simp at hO
  | jbool b => simp at hO
  | num n => simp at hO
  | str s => simp at hO
  | arr a => simp at hO

/-- Claim C1: for every verdict produced by the rule checker, on each of
the parsing paths (direct JSON parse, embedded-JSON extraction, lexical
fallback — and also on the error paths, where confidence is 0), if the
verdict's confidence value is ≥ 90 then its status field equals `pass`,
regardless of the status the model originally stated. -/
theorem c1_confidence_override (loads : String → Option Json) (rule response : String)
    (c : Int)
    (hconf : jLookup (checkRuleResponse loads rule response) "confidence" =
      some (Json.num c))
    (hge : 90 ≤ c) :
    jLookup (checkRuleResponse loads rule response) "status" = some (Json.str "pass") := by
  unfold checkRuleResponse at hconf ⊢
  cases hL : loads response with
  | some j =>
    rw [hL] at hconf
    dsimp only at hconf ⊢
    cases hO : applyOverride j with
    | ok v =>
      rw [hO] at hconf
      dsimp only at hconf ⊢
      exact override_ok_conf j v c hO hconf hge
    | error e =>
      rw [hO] at hconf
      dsimp only at hconf ⊢
      rw [jLookup_error_conf] at hconf
      injection hconf with hconf
      injection hconf with hconf
      omega
  | none =>
    rw [hL] at hconf
    dsimp only at hconf ⊢
    cases hE : extractBraces response with
    | some sub =>
      rw [hE] at hconf
      dsimp only at hconf ⊢
      cases hL2 : loads sub with
      | some j =>
        rw [hL2] at hconf
        dsimp only at hconf ⊢
        cases hO : applyOverride j with
        | ok v =>
          rw [hO] at hconf
          dsimp only at hconf ⊢
          exact override_ok_conf j v c hO hconf hge
        | error e =>
          rw [hO] at hconf
          dsimp only at hconf ⊢
          rw [jLookup_unknown_conf] at hconf
          injection hconf with hconf
          injection hconf with hconf
          omega
      | none =>
        rw [hL2] at hconf
        dsimp only at hconf ⊢
        rw [jLookup_unknown_conf] at hconf
        injection hconf with hconf
        injection hconf with hconf
        omega
    | none =>
      rw [hE] at hconf
      dsimp only at hconf ⊢
      rw [jLookup_lexical_conf] at hconf
      injection hconf with hconf
      injection hconf with hconf
      rw [jLookup_lexical_status, if_pos (by omega)]

/-- Witness for C1: a direct-JSON response that states `status: fail`
with confidence 95 comes out with status `pass`. -/
theorem c1_confidence_override_witness :
    jLookup (checkRuleResponse loads95 "Act must define key terms" resp95) "status" =
      some (Json.str "pass") :=
  c1_confidence_override loads95 "Act must define key terms" resp95 95 rfl (by norm_num)

/-- Claim C10: when the completion service returns the empty string for
a rule (the wrapper's failure signal), the rule checker records the
verdict `(rule, unknown, "", 0)` rather than an error verdict or an
exception. -/
theorem c10_empty_response (loads : String → Option Json) (rule : String)
    (h : loads "" = none) :
    checkRuleResponse loads rule "" =
      [("rule", Json.str rule), ("status", Json.str "unknown"),
       ("evidence", Json.str ""), ("confidence", Json.num 0)] := by
  unfold checkRuleResponse
  rw [h]
  rfl

/-- Witness for C10 at a concrete oracle. -/
theorem c10_empty_response_witness :
    checkRuleResponse loadsNone "Act must define key terms" "" =
      [("rule", Json.str "Act must define key terms"), ("status", Json.str "unknown"),
       ("evidence", Json.str ""), ("confidence", Json.num 0)] :=
  c10_empty_response loadsNone "Act must define key terms" rfl

/-! ### Claim C2 -/

/-- Helper: the base lexical status is always one of pass / fail /
unknown. -/
theorem lexicalStatusBase_mem (response : String) :
    lexicalStatusBase response ∈ (["pass", "fail", "unknown"] : List String) := by
  unfold lexicalStatusBase
  split
  · simp
  · split <;> simp

/-- Counterexample to C2 as stated: a response that *is* valid JSON but
not rule-shaped (`\x7b"a": 1\x7d`) is appended as-is, without the `rule`,
`status`, `evidence`, `confidence` keys — the appended verdict is not
well formed.  (The claim's well-formedness guarantee only holds on the
non-JSON paths.) -/
theorem c2_counterexample :
    loadsObjA respA = some (Json.obj [("a", Json.num 1)]) ∧
    ¬ wellFormed (checkRuleResponse loadsObjA "Act must define key terms" respA) := by
  constructor
  · rfl
  · intro h
    obtain ⟨⟨r, hr⟩, -, -, -⟩ := h
    rw [show checkRuleResponse loadsObjA "Act must define key terms" respA =
        [("a", Json.num 1)] from rfl] at hr
    rw [show jLookup [("a", Json.num 1)] "rule" = none from rfl] at hr
    exact Option.noConfusion hr

/-- Claim C2 (amended): the rule checker never raises and appends
exactly one verdict per rule; whenever the response fails the direct
JSON parse *and* the brace-extracted substring (if any) also fails to
parse, the appended verdict is well formed (it has the `rule`, `status`,
`evidence`, `confidence` fields) and its status is one of `pass`,
`fail`, `unknown`.  When a JSON parse succeeds the appended verdict is
the parsed object itself, which need not carry those keys. -/
theorem c2_fallback_wellformed (loads : String → Option Json) (rule response : String)
    (respond : String → String)
    (h1 : loads response = none)
    (h2 : ∀ sub, extractBraces response = some sub → loads sub = none) :
    wellFormed (checkRuleResponse loads rule response) ∧
    statusStr (checkRuleResponse loads rule response) ∈
      (["pass", "fail", "unknown"] : List String) ∧
    (check_rules loads respond).length = rulesList.length := by
  refine ⟨?_, ?_, by simp [check_rules]⟩ <;>
  · unfold checkRuleResponse
    rw [h1]
    dsimp only
    cases hE : extractBraces response with
    | some sub =>
      dsimp only
      rw [h2 sub hE]
      dsimp only
      first
      | exact ⟨⟨rule, rfl⟩, ⟨"unknown", rfl⟩, ⟨response, rfl⟩, ⟨0, rfl⟩⟩
      | simp [statusStr, unknownVerdict, jLookup]
    | none =>
      dsimp only
      first
      | exact ⟨⟨rule, rfl⟩,
          ⟨(if 90 ≤ lexicalConfidence response then "pass" else lexicalStatusBase response),
            rfl⟩, ⟨response, rfl⟩, ⟨lexicalConfidence response, rfl⟩⟩
      | {
          show statusStr (lexicalVerdict rule response) ∈ _
          unfold statusStr
          rw [jLookup_lexical_status]
          dsimp only
          split
          · simp
          · exact lexicalStatusBase_mem response
        }

/-- Witness for the amended C2 at a concrete non-JSON response. -/
theorem c2_fallback_wellformed_witness :
    wellFormed (checkRuleResponse loadsNone "Act must define key terms" "no json here") ∧
    statusStr (checkRuleResponse loadsNone "Act must define key terms" "no json here") ∈
      (["pass", "fail", "unknown"] : List String) ∧
    (check_rules loadsNone (fun _ => "no json here")).length = rulesList.length :=
  c2_fallback_wellformed loadsNone "Act must define key terms" "no json here"
    (fun _ => "no json here") rfl
    (fun sub h => by
      rw [show extractBraces "no json here" = none from rfl] at h
      exact Option.noConfusion h)

/-! ### Claim C8 -/

theorem runWrites_foldl (call : Nat → Except String Bool) (idxs : List Nat) :
    ∀ (b0 : Bool) (acc0 : List Nat),
      idxs.foldl
        (fun acc i =>
          (acc.1 && (match call i with | Except.ok b => b | Except.error _ => false),
           acc.2 ++ [i]))
        (b0, acc0) = (b0 && allOk idxs call, acc0 ++ idxs) := by
  induction idxs with
  | nil => intro b0 acc0; simp [allOk]
  | cons i rest ih =>
    intro b0 acc0
    rw [List.foldl_cons, ih]
    unfold allOk
    rw [List.all_cons]
    simp [Bool.and_assoc]

theorem runWrites_eq (idxs : List Nat) (call : Nat → Except String Bool) :
    runWrites idxs call = (allOk idxs call, idxs) := by
  unfold runWrites
  rw [runWrites_foldl]
  simp

/-- Claim C5: in the write phase of `process_and_index_document`, every
search-index batch and every per-chunk document-store write is attempted
regardless of earlier failures (the attempted index lists are exactly
`range(0, n, 10)` and `range(n)`, whatever the call outcomes), and the
returned `indexed` flag is the conjunction of all batch successes with
the conjunction of all per-chunk store successes. -/
theorem c5_no_short_circuit (n : Nat) (uploadBatch storeCosmos : Nat → Except String Bool) :
    (indexPhase n uploadBatch storeCosmos).searchBatchesAttempted = pyRangeStep n 10 ∧
    (indexPhase n uploadBatch storeCosmos).cosmosChunksAttempted = List.range n ∧
    (indexPhase n uploadBatch storeCosmos).searchSuccess =
      allOk (pyRangeStep n 10) uploadBatch ∧
    (indexPhase n uploadBatch storeCosmos).cosmosSuccess =
      allOk (List.range n) storeCosmos ∧
    (indexPhase n uploadBatch storeCosmos).indexed =
      (allOk (pyRangeStep n 10) uploadBatch && allOk (List.range n) storeCosmos) := by
  unfold indexPhase
  rw [runWrites_eq, runWrites_eq]
  exact ⟨rfl, rfl, rfl, rfl, rfl⟩

/-! ### Claim C6 -/

/-- Fuel irrelevance for `pyReplaceFuel`: for non-empty `old`, any fuel
at least the text length gives the same result (so `pyReplace`'s choice
of `s.length` is canonical). -/
theorem pyReplaceFuel_fuel_irrel (old new : List Char) (hold : old ≠ []) :
    ∀ (fuel1 fuel2 : Nat) (s : List Char), s.length ≤ fuel1 → s.length ≤ fuel2 →
      pyReplaceFuel old new fuel1 s = pyReplaceFuel old new fuel2 s := by
  have holdlen : 0 < old.length := List.length_pos.mpr hold
  intro fuel1
  induction fuel1 with
  | zero =>
    intro fuel2 s h1 h2
    have : s = [] := List.eq_nil_of_length_eq_zero (by omega)
    subst this
    cases fuel2 <;> rfl
  | succ fuel ih =>
    intro fuel2 s h1 h2
    cases s with
    | nil => cases fuel2 <;> rfl
    | cons c rest =>
      cases fuel2 with
      | zero => simp at h2
      | succ fuel2 =>
        show (if old.isPrefixOf (c :: rest) then
               new ++ pyReplaceFuel old new fuel ((c :: rest).drop old.length)
              else c :: pyReplaceFuel old new fuel rest) =
             (if old.isPrefixOf (c :: rest) then
               new ++ pyReplaceFuel old new fuel2 ((c :: rest).drop old.length)
              else c :: pyReplaceFuel old new fuel2 rest)
        by_cases hp : old.isPrefixOf (c :: rest)
        · rw [if_pos hp, if_pos hp,
            ih fuel2 ((c :: rest).drop old.length)
              (by simp only [List.length_drop, List.length_cons] at h1 ⊢; omega)
              (by simp only [List.length_drop, List.length_cons] at h2 ⊢; omega)]
        · rw [if_neg hp, if_neg hp,
            ih fuel2 rest
              (by simp only [List.length_cons] at h1; omega)
              (by simp only [List.length_cons] at h2; omega)]

/-- Replacing a single character is a character map. -/
theorem pyReplace_single (a b : Char) (s : List Char) :
    pyReplace s [a] [b] = s.map (fun c => if c = a then b else c) := by
  unfold pyReplace
  rw [if_neg (by simp)]
  suffices h : ∀ (fuel : Nat) (s : List Char), s.length ≤ fuel →
      pyReplaceFuel [a] [b] fuel s = s.map (fun c => if c = a then b else c) by
    exact h s.length s le_rfl
  intro fuel
  induction fuel with
  | zero =>
    intro s h
    have : s = [] := List.eq_nil_of_length_eq_zero (by omega)
    subst this
    rfl
  | succ fuel ih =>
    intro s h
    cases s with
    | nil => rfl
    | cons c rest =>
      show (if [a].isPrefixOf (c :: rest) then
             [b] ++ pyReplaceFuel [a] [b] fuel ((c :: rest).drop 1)
            else c :: pyReplaceFuel [a] [b] fuel rest) = _
      have hpre : [a].isPrefixOf (c :: rest) = (a == c) := by
        show (a == c && [].isPrefixOf rest) = (a == c)
        simp [List.isPrefixOf]
      rw [hpre]
      simp only [List.length_cons] at h
      by_cases hac : a = c
      · subst hac
        rw [if_pos (by simp)]
        rw [List.map_cons, if_pos rfl]
        rw [show (a :: rest).drop 1 = rest from rfl, ih rest (by omega)]
        rfl
      · have : (a == c) = false := by simpa using hac
        rw [this, if_neg (by simp)]
        rw [List.map_cons, if_neg (fun hh => hac hh.symm), ih rest (by omega)]

/-- Composing the two single-character replacements gives the combined
period/space sanitizer. -/
theorem underscore_comp (c : Char) :
    (if (if c = '.' then '_' else c) = ' ' then '_' else (if c = '.' then '_' else c)) =
      underscoreDotSpace c := by
  unfold underscoreDotSpace
  by_cases h1 : c = '.'
  · simp [h1]
  · by_cases h2 : c = ' ' <;> simp [h1, h2]

/-- Counterexample to C6 as stated: for the source identifier
`doc.pdf`, the code produces `doc_chunk_0` (the `.pdf` occurrence is
deleted, not replaced by an underscore), while the claim's sanitization
(extension suffix → underscore, then periods and spaces → underscores)
would produce `doc__chunk_0`. -/
theorem c6_counterexample :
    doc_id "doc.pdf".data 0 = "doc_chunk_0".data ∧
    claimDocId "doc.pdf".data 0 = "doc__chunk_0".data ∧
    doc_id "doc.pdf".data 0 ≠ claimDocId "doc.pdf".data 0 := by
  refine ⟨by decide, by decide, by decide⟩

/-- Claim C6 (amended): for every source identifier and chunk index the
chunk identifier is `{sanitized}_chunk_{index}`, where sanitization
deletes every occurrence of the literal `.pdf` (replacing it with the
empty string — not an underscore, and not only as a suffix) and then
replaces the remaining periods and spaces with underscores. -/
theorem c6_doc_id (blob : List Char) (i : Nat) :
    doc_id blob i =
      (pyReplace blob ".pdf".data []).map underscoreDotSpace ++
        "_chunk_".data ++ (Nat.repr i).data := by
  unfold doc_id clean_blob_name
  rw [pyReplace_single '.' '_', pyReplace_single ' ' '_', List.map_map]
  congr 2
  exact List.map_congr_left (fun c _ => underscore_comp c)

/-! ### Claim C7 -/

theorem truncate200_ne_nil (chunk : List Char) (h : chunk ≠ []) :
    truncate200 chunk ≠ [] := by
  unfold truncate200
  split
  · simp
  · exact h

theorem listContains_ne_nil (l w : List Char) (hw : w ≠ [])
    (hc : listContains l w = true) : l ≠ [] := by
  intro hl
  subst hl
  cases w with
  | nil => exact hw rfl
  | cons c rest => simp [listContains, List.isPrefixOf] at hc

theorem kwAny_ne_nil (l : List Char) (kws : List (List Char))
    (hk : ∀ w ∈ kws, w ≠ []) (h : kwAny l kws = true) : l ≠ [] := by
  unfold kwAny at h
  obtain ⟨w, hw, hc⟩ := List.any_eq_true.mp h
  exact listContains_ne_nil l w (hk w hw) hc

/-- Claim C7: for every chunk text, the content analysis has a non-empty
`purpose`, chosen by the priority order definitions > eligibility >
payments > penalties > generic; in particular text containing both
`means` and `eligible` gets purpose `Definitions section`. -/
theorem c7_purpose_priority (chunk : List Char) :
    (analyze_chunk_content chunk).purpose ≠ [] ∧
    (analyze_chunk_content chunk).purpose =
      (if kwAny (pyLower chunk) defKeywords then "Definitions section".data
       else if kwAny (pyLower chunk) eligKeywords then "Eligibility criteria".data
       else if kwAny (pyLower chunk) payKeywords then "Payment and entitlements".data
       else if kwAny (pyLower chunk) penKeywords then "Enforcement and penalties".data
       else "General legislative content".data) ∧
    (listContains (pyLower chunk) "means".data = true →
     listContains (pyLower chunk) "eligible".data = true →
     (analyze_chunk_content chunk).purpose = "Definitions section".data) := by
  have hchunk : ∀ (kws : List (List Char)), (∀ w ∈ kws, w ≠ []) →
      kwAny (pyLower chunk) kws = true → chunk ≠ [] := by
    intro kws hk h
    have := kwAny_ne_nil (pyLower chunk) kws hk h
    intro hc
    exact this (by simp [pyLower, hc])
  have hiff : ∀ (kws : List (List Char)), (∀ w ∈ kws, w ≠ []) →
      (((if kwAny (pyLower chunk) kws then truncate200 chunk else []) ≠ []) ↔
        kwAny (pyLower chunk) kws = true) := by
    intro kws hk
    split
    next h => exact iff_of_true (truncate200_ne_nil chunk (hchunk kws hk h)) h
    next h => exact iff_of_false (fun hh => hh rfl) (by simpa using h)
  have hdef : ∀ w ∈ defKeywords, w ≠ [] := by intro w hw; fin_cases hw <;> simp
  have helig : ∀ w ∈ eligKeywords, w ≠ [] := by intro w hw; fin_cases hw <;> simp
  have hpay : ∀ w ∈ payKeywords, w ≠ [] := by intro w hw; fin_cases hw <;> simp
  have hpen : ∀ w ∈ penKeywords, w ≠ [] := by intro w hw; fin_cases hw <;> simp
  have hP : (analyze_chunk_content chunk).purpose =
      (if kwAny (pyLower chunk) defKeywords then "Definitions section".data
       else if kwAny (pyLower chunk) eligKeywords then "Eligibility criteria".data
       else if kwAny (pyLower chunk) payKeywords then "Payment and entitlements".data
       else if kwAny (pyLower chunk) penKeywords then "Enforcement and penalties".data
       else "General legislative content".data) := by
    show (if (if kwAny (pyLower chunk) defKeywords then truncate200 chunk else []) ≠ []
          then "Definitions section".data
          else if (if kwAny (pyLower chunk) eligKeywords then truncate200 chunk else []) ≠ []
          then "Eligibility criteria".data
          else if (if kwAny (pyLower chunk) payKeywords then truncate200 chunk else []) ≠ []
          then "Payment and entitlements".data
          else if (if kwAny (pyLower chunk) penKeywords then truncate200 chunk else []) ≠ []
          then "Enforcement and penalties".data
          else "General legislative content".data) = _
    rw [if_congr (hiff defKeywords hdef) rfl
      (if_congr (hiff eligKeywords helig) rfl
        (if_congr (hiff payKeywords hpay) rfl
          (if_congr (hiff penKeywords hpen) rfl rfl)))]
  refine ⟨?_, hP, ?_⟩
  · rw [hP]
    split
    · simp
    · split
      · simp
      · split
        · simp
        · split <;> simp
  · intro h1 h2
    have hkw : kwAny (pyLower chunk) defKeywords = true :=
      List.any_eq_true.mpr ⟨"means".data, by simp [defKeywords], h1⟩
    rw [hP, if_pos hkw]

/-- Witness for C7 on a chunk containing both `means` and `eligible`. -/
theorem c7_purpose_priority_witness :
    (analyze_chunk_content "X means Y and is eligible".data).purpose =
      "Definitions section".data :=
  (c7_purpose_priority "X means Y and is eligible".data).2.2 (by decide) (by decide)

/-! ### Slice and strip lemmas -/

theorem sliceIdx_le (n : Nat) (i : Int) : sliceIdx n i ≤ n := by
  unfold sliceIdx
  split <;> omega

theorem sliceIdx_add_le (n : Nat) (i c : Int) (hc : 0 ≤ c) :
    sliceIdx n (i + c) ≤ sliceIdx n i + c.toNat := by
  unfold sliceIdx
  split <;> split <;> omega

theorem sliceIdx_coe (n : Nat) (i : Int) (h0 : 0 ≤ i) :
    (sliceIdx n i : Int) = min i n := by
  unfold sliceIdx
  rw [if_neg (by omega)]
  omega

theorem sliceIdx_nat (n k : Nat) : sliceIdx n k = min k n := by
  unfold sliceIdx
  rw [if_neg (by omega)]
  omega

theorem length_pySlice (s : List Char) (i j : Int) :
    (pySlice s i j).length = sliceIdx s.length j - sliceIdx s.length i := by
  unfold pySlice
  rw [List.length_drop, List.length_take, Nat.min_eq_left (sliceIdx_le _ _)]

theorem length_dropWhile_le (p : Char → Bool) (l : List Char) :
    (l.dropWhile p).length ≤ l.length := by
  induction l with
  | nil => simp
  | cons c rest ih =>
    rw [List.dropWhile_cons]
    split
    · simp only [List.length_cons]; omega
    · simp

theorem length_pyStrip_le (s : List Char) : (pyStrip s).length ≤ s.length := by
  unfold pyStrip
  rw [List.length_reverse]
  calc ((s.dropWhile pyIsSpace).reverse.dropWhile pyIsSpace).length
      ≤ (s.dropWhile pyIsSpace).reverse.length := length_dropWhile_le _ _
    _ = (s.dropWhile pyIsSpace).length := List.length_reverse _
    _ ≤ s.length := length_dropWhile_le _ _

theorem dropWhile_eq_self_of (p : Char → Bool) (l : List Char)
    (h : ∀ c ∈ l, p c = false) : l.dropWhile p = l := by
  cases l with
  | nil => rfl
  | cons c rest =>
    rw [List.dropWhile_cons, if_neg (by simp [h c (List.mem_cons_self c rest)])]

theorem pyStrip_eq_self (s : List Char) (h : ∀ c ∈ s, pyIsSpace c = false) :
    pyStrip s = s := by
  unfold pyStrip
  rw [dropWhile_eq_self_of _ _ h]
  rw [dropWhile_eq_self_of _ _ (fun c hc => h c (List.mem_reverse.mp hc))]
  exact List.reverse_reverse s

theorem pySlice_sublist (s : List Char) (i j : Int) : (pySlice s i j).Sublist s :=
  ((s.take (sliceIdx s.length j)).drop_sublist (sliceIdx s.length i)).trans
    (s.take_sublist (sliceIdx s.length j))

theorem take_of_take_length (l : List Char) (m : Nat) :
    l.take ((l.take m).length) = l.take m := by
  rw [List.length_take]
  rw [show l.take (min m l.length) = (l.take l.length).take m from by
    rw [List.take_take]]
  rw [List.take_length]

theorem pySlice_occursAt (s : List Char) (i j : Int) :
    occursAt s (pySlice s i j) (sliceIdx s.length i) := by
  unfold occursAt pySlice
  rw [List.drop_take]
  exact take_of_take_length _ _

theorem pyRfindDot_cases (s : List Char) (i j : Int) :
    pyRfindDot s i j = -1 ∨
    ∃ k : Nat, pyRfindDot s i j = (k : Int) ∧
      sliceIdx s.length i ≤ k ∧ k < sliceIdx s.length j := by
  unfold pyRfindDot
  split
  next k hk =>
    right
    refine ⟨k, rfl, ?_⟩
    have hmem := List.mem_of_mem_getLast? (Option.mem_def.mpr hk)
    have := (List.mem_filter.mp hmem).2
    simp only [Bool.and_eq_true, decide_eq_true_eq] at this
    exact ⟨this.1.1, this.1.2⟩
  next hk => left; rfl

/-! ### Window bounds -/

/-- The stripped window slice of one loop iteration never exceeds the
chunk size: the sentence-boundary adjustment only ever shortens the
window. -/
theorem chunk_len_le (text : List Char) (cs start : Int) (hcs : 0 ≤ cs) :
    (pyStrip (pySlice text start (chunkEnd text cs start))).length ≤ cs.toNat := by
  suffices hS : sliceIdx text.length (chunkEnd text cs start) ≤
      sliceIdx text.length start + cs.toNat by
    have h1 := length_pyStrip_le (pySlice text start (chunkEnd text cs start))
    have h2 := length_pySlice text start (chunkEnd text cs start)
    omega
  unfold chunkEnd
  split
  · split
    next hse =>
      rcases pyRfindDot_cases text start (start + cs) with h1 | ⟨k, hk, hk1, hk2⟩
      · rw [h1] at hse ⊢
        rw [show (-1 : Int) + 1 = ((0 : Nat) : Int) from by norm_num, sliceIdx_nat]
        omega
      · rw [hk] at hse ⊢
        rw [show ((k : Int)) + 1 = ((k + 1 : Nat) : Int) from by push_cast; ring,
          sliceIdx_nat]
        have hb := sliceIdx_add_le text.length start cs hcs
        omega
    next => exact sliceIdx_add_le text.length start cs hcs
  · exact sliceIdx_add_le text.length start cs hcs

/-- With a nonnegative start and an overlap below half the chunk size,
each window end lies strictly beyond `start + overlap` (so the next
start advances and stays nonnegative). -/
theorem chunkEnd_lb (text : List Char) (cs ov start : Int)
    (hov : 0 ≤ ov) (hcs : ov < cs.fdiv 2) (hstart : 0 ≤ start) :
    start + ov < chunkEnd text cs start := by
  have hed : cs.fdiv 2 = cs / 2 := Int.fdiv_eq_ediv cs (by norm_num)
  rw [hed] at hcs
  unfold chunkEnd
  rw [hed]
  split
  · split
    next hse => omega
    next => omega
  · omega

/-! ### Claim C3 -/

/-- Claim C3 (code bug): with `overlap = chunk_size` (net advance zero)
and a period-free text longer than the chunk size, `chunk_text`'s loop
never terminates — `start` is recomputed as `end - overlap = start`
forever.  The code neither returns nor rejects the configuration, so
the claimed guard does not exist.  Exhibited on `'a' * 20` with
`chunk_size = overlap = 10`: no fuel makes the loop finish. -/
theorem c3_nontermination :
    ∀ fuel : Nat, chunkTextF fuel (List.replicate 20 'a') 10 10 = none := by
  have step : ∀ (fuel : Nat) (acc : List (List Char)),
      chunkLoop (List.replicate 20 'a') 10 10 (fuel + 1) 0 acc =
        chunkLoop (List.replicate 20 'a') 10 10 fuel 0 (acc ++ [List.replicate 10 'a']) :=
    fun fuel acc => rfl
  have loop : ∀ (fuel : Nat) (acc : List (List Char)),
      chunkLoop (List.replicate 20 'a') 10 10 fuel 0 acc = none := by
    intro fuel
    induction fuel with
    | zero => intro acc; rfl
    | succ f ih =>
      intro acc
      rw [step f acc]
      exact ih _
  intro fuel
  unfold chunkTextF
  rw [if_neg (by decide)]
  exact loop fuel []

/-! ### Claim C9 -/

theorem chunkLoop_len (text : List Char) (cs ov : Int) (hcs : 0 ≤ cs) :
    ∀ (fuel : Nat) (start : Int) (acc chunks : List (List Char)),
      (∀ c ∈ acc, c.length ≤ cs.toNat) →
      chunkLoop text cs ov fuel start acc = some chunks →
      ∀ c ∈ chunks, c.length ≤ cs.toNat := by
  intro fuel
  induction fuel with
  | zero =>
    intro start acc chunks hacc h
    exact absurd h (by simp [chunkLoop])
  | succ f ih =>
    intro start acc chunks hacc h
    simp only [chunkLoop] at h
    have hacc2 : ∀ c ∈ (if pyStrip (pySlice text start (chunkEnd text cs start)) = []
        then acc else acc ++ [pyStrip (pySlice text start (chunkEnd text cs start))]),
        c.length ≤ cs.toNat := by
      intro c hc
      split at hc
      · exact hacc c hc
      · rcases List.mem_append.mp hc with h' | h'
        · exact hacc c h'
        · rw [List.mem_singleton.mp h']
          exact chunk_len_le text cs start hcs
    split at h
    · split at h
      · injection h with h
        rw [← h]
        exact hacc2
      · exact ih _ _ _ hacc2 h
    · injection h with h
      rw [← h]
      exact hacc

/-- Claim C9: with a nonnegative overlap smaller than the chunk size,
every chunk string `chunk_text` returns (whenever its loop terminates)
has length at most `chunk_size` — the sentence-boundary adjustment only
shortens a window, never extends it past the cap. -/
theorem c9_chunk_size_bound (fuel : Nat) (text : List Char) (cs ov : Int)
    (chunks : List (List Char))
    (hov : 0 ≤ ov) (hcs : ov < cs)
    (h : chunkTextF fuel text cs ov = some chunks) :
    ∀ c ∈ chunks, (c.length : Int) ≤ cs := by
  have hcs0 : 0 ≤ cs := by omega
  unfold chunkTextF at h
  split at h
  next hsmall =>
    injection h with h
    rw [← h]
    intro c hc
    rw [List.mem_singleton.mp hc]
    exact hsmall
  next hbig =>
    intro c hc
    have := chunkLoop_len text cs ov hcs0 fuel 0 [] chunks (by simp) h c hc
    omega

/-- Witness for C9 on a concrete terminating run
(`chunk_text("0123456789AB", 10, 2) = ["0123456789", "89AB"]`). -/
theorem c9_chunk_size_bound_witness :
    (("0123456789".data : List Char).length : Int) ≤ 10 :=
  c9_chunk_size_bound 5 "0123456789AB".data 10 2 ["0123456789".data, "89AB".data]
    (by norm_num) (by norm_num) rfl "0123456789".data (List.mem_cons_self _ _)

/-! ### Claim C4 -/

theorem coveredBy_append (text : List Char) (acc : List (List Char)) (c0 : List Char)
    (pos : Nat) (h : coveredBy text acc pos) : coveredBy text (acc ++ [c0]) pos := by
  obtain ⟨c, hc, i, h1, h2, h3⟩ := h
  exact ⟨c, List.mem_append_left _ hc, i, h1, h2, h3⟩

theorem chunkLoop_covers (text : List Char) (cs ov : Int)
    (hws : ∀ c ∈ text, pyIsSpace c = false)
    (hov : 0 ≤ ov) (hcs : ov < cs.fdiv 2) :
    ∀ (fuel : Nat) (start : Int) (acc chunks : List (List Char)),
      0 ≤ start →
      (∀ pos : Nat, (pos : Int) < start → coveredBy text acc pos) →
      chunkLoop text cs ov fuel start acc = some chunks →
      ∀ pos : Nat, pos < text.length → coveredBy text chunks pos := by
  intro fuel
  induction fuel with
  | zero =>
    intro start acc chunks h0 hinv h
    exact absurd h (by simp [chunkLoop])
  | succ f ih =>
    intro start acc chunks h0 hinv h
    simp only [chunkLoop] at h
    split at h
    case isTrue hlt =>
      have hE := chunkEnd_lb text cs ov start hov hcs h0
      set e := chunkEnd text cs start with hedef
      have he0 : 0 ≤ e := by omega
      have ha : (sliceIdx text.length start : Int) = start := by
        rw [sliceIdx_coe _ _ h0]
        omega
      have he2 : (sliceIdx text.length e : Int) = min e (text.length : Int) :=
        sliceIdx_coe _ _ he0
      have hstrip : pyStrip (pySlice text start e) = pySlice text start e :=
        pyStrip_eq_self _ (fun c hc => hws c ((pySlice_sublist text start e).subset hc))
      have hlenN := length_pySlice text start e
      have hlen : ((pySlice text start e).length : Int) = min e (text.length : Int) - start := by
        omega
      have hne : pySlice text start e ≠ [] := by
        refine List.length_pos.mp ?_
        omega
      have hcover : ∀ pos : Nat, start ≤ (pos : Int) →
          (pos : Int) < min e (text.length : Int) →
          coveredBy text (acc ++ [pySlice text start e]) pos := by
        intro pos hp1 hp2
        refine ⟨pySlice text start e, List.mem_append_right _ (List.mem_singleton_self _),
          sliceIdx text.length start, pySlice_occursAt text start e, by omega, by omega⟩
      rw [hstrip] at h
      rw [if_neg hne] at h
      split at h
      case isTrue hexit =>
        injection h with h
        rw [← h]
        intro pos hpos
        by_cases hp : (pos : Int) < start
        · exact coveredBy_append _ _ _ _ (hinv pos hp)
        · exact hcover pos (by omega) (by omega)
      case isFalse hexit =>
        refine ih (e - ov) (acc ++ [pySlice text start e]) chunks (by omega) ?_ h
        intro pos hp
        by_cases hp2 : (pos : Int) < start
        · exact coveredBy_append _ _ _ _ (hinv pos hp2)
        · exact hcover pos (by omega) (by omega)
    case isFalse hlt =>
      injection h with h
      rw [← h]
      intro pos hpos
      refine hinv pos (by omega)

/-- Counterexample to C4 as stated: on whitespace-only input every
window is stripped to the empty string and dropped, so `chunk_text`
returns the empty chunk list and no position of the text is covered
(here: three spaces with chunk size 2, overlap 0 — parameters that
satisfy every other hypothesis of the amended claim). -/
theorem c4_counterexample :
    chunkTextF 5 (List.replicate 3 ' ') 2 0 = some [] ∧
    0 < (List.replicate 3 ' ').length ∧
    ¬ coveredBy (List.replicate 3 ' ') [] 0 := by
  refine ⟨rfl, by simp, ?_⟩
  intro ⟨c, hc, _⟩
  simp at hc

/-- Claim C4 (amended): for input text containing no whitespace
characters, with a nonnegative overlap below half the chunk size (the
defaults 1000/200 qualify), whenever `chunk_text`'s loop terminates,
every position of the input text lies inside at least one returned
chunk, at that chunk's place in the text.  (On general text,
whitespace-only windows are stripped to empty and dropped, so
whitespace positions can be uncovered — see the counterexample.) -/
theorem c4_coverage (fuel : Nat) (text : List Char) (cs ov : Int)
    (chunks : List (List Char))
    (hws : ∀ c ∈ text, pyIsSpace c = false)
    (hov : 0 ≤ ov) (hcs : ov < cs.fdiv 2)
    (h : chunkTextF fuel text cs ov = some chunks) :
    ∀ pos : Nat, pos < text.length → coveredBy text chunks pos := by
  unfold chunkTextF at h
  split at h
  next hsmall =>
    injection h with h
    rw [← h]
    intro pos hpos
    refine ⟨text, List.mem_singleton_self _, 0, ?_, by omega, by omega⟩
    unfold occursAt
    rw [List.drop_zero, List.take_length]
  next hbig =>
    exact chunkLoop_covers text cs ov hws hov hcs fuel 0 [] chunks le_rfl
      (fun pos hp => absurd hp (by omega)) h

/-- Witness for the amended C4 on a concrete run:
`chunk_text("abcdefghijkl", 10, 2) = ["abcdefghij", "ijkl"]` covers
position 11. -/
theorem c4_coverage_witness :
    coveredBy "abcdefghijkl".data ["abcdefghij".data, "ijkl".data] 11 :=
  c4_coverage 5 "abcdefghijkl".data 10 2 ["abcdefghij".data, "ijkl".data]
    (by decide) (by norm_num) (by decide) rfl 11 (by decide)
